import Mathlib

/-!
Verification development for the DroneLogDatabase frontend.

This file gives a shallow embedding of the algorithmic core of the
frontend — the comparator factory, the index-tagged stable sort, the
flights table view-model (enrichment, filter/pagination handlers), and
the haversine-based GPS point decimation of the map display — and proves
or refutes the specified properties about them.

Conventions of the embedding:
* JavaScript numbers that the code treats as exact data (ids, coordinates,
  filter values) are modelled as `ℤ` / `ℚ`; the transcendental haversine
  computation is modelled over `ℝ` with `Real.sin`, `Real.cos`,
  `Real.arctan` and `Real.sqrt`.
* JavaScript strings are compared code-unit-wise; the inputs considered
  here are ASCII, where Lean `Char` values coincide with UTF-16 code
  units.
* `Array.prototype.sort` is modelled by `List.mergeSort`, a stable merge
  sort, which is a conforming implementation of the ECMAScript
  specification.  ECMA-262 only pins the result down for *consistent*
  comparison functions; for inconsistent comparators the order is
  implementation-defined, and the model's behaviour is that of its
  merge sort.
-/

/-! ## JavaScript value model -/

/-- Lexicographic code-unit comparison of two character sequences, the
semantics of the JavaScript `<` operator on strings. -/
def charListLt : List Char → List Char → Bool
  | [], [] => false
  | [], _ :: _ => true
  | _ :: _, [] => false
  | a :: as, b :: bs =>
    if a.toNat < b.toNat then true
    else if b.toNat < a.toNat then false
    else charListLt as bs

/-- JavaScript `<` on strings (code-unit lexicographic order). -/
def jsStrLt (a b : String) : Bool :=
  charListLt a.data b.data

/-- A JavaScript runtime value as it occurs in the sortable record fields
of the flights table: a string, a number, or `undefined`.  Numbers are
modelled as exact rationals. -/
inductive JSVal where
  | str : String → JSVal
  | num : ℚ → JSVal
  | undef : JSVal
deriving DecidableEq

/-- JavaScript `<` on the values above.  Any comparison involving
`undefined` is `false` (NaN semantics).  A string/number comparison
coerces the string with ToNumber; the records sorted by this frontend
are uniformly typed per field after enrichment, so such mixed
comparisons never occur in the pipeline and are modelled by the
non-numeric-string (NaN) case, which is `false`. -/
def jsLt : JSVal → JSVal → Bool
  | .str a, .str b => jsStrLt a b
  | .num a, .num b => decide (a < b)
  | _, _ => false

/-! ## Comparator factory (Flights.tsx `descendingComparator` / `getComparator`) -/

/-- Sort direction, the `Order` type of Flights.tsx. -/
inductive Order where
  | asc
  | desc
deriving DecidableEq

/-- The `descendingComparator<T>(a, b, orderBy)` function of Flights.tsx.
Property access `a[orderBy]` is modelled by the accessor function
`orderBy : α → JSVal`; `b[orderBy] > a[orderBy]` is the swapped-operand
form of `<`, which agrees with `jsLt` on these values. -/
def descendingComparator (a b : α) (orderBy : α → JSVal) : ℤ :=
  if jsLt (orderBy b) (orderBy a) then -1
  else if jsLt (orderBy a) (orderBy b) then 1
  else 0

/-- The `getComparator(order, orderBy)` factory of Flights.tsx. -/
def getComparator (order : Order) (orderBy : α → JSVal) : α → α → ℤ :=
  match order with
  | .desc => fun a b => descendingComparator a b orderBy
  | .asc => fun a b => -(descendingComparator a b orderBy)

/-! ## Stable sort (Flights.tsx `stableSort`) -/

/-- The comparison closure passed to `Array.prototype.sort` inside
`stableSort`: compare by the user comparator, breaking ties by the
attached original index (`a[1] - b[1]`); `sort` puts `a` first exactly
when the callback result is `≤ 0`. -/
def tagLe (comparator : α → α → ℤ) (a b : α × ℕ) : Bool :=
  decide ((if comparator a.1 b.1 ≠ 0 then comparator a.1 b.1 else (a.2 : ℤ) - (b.2 : ℤ)) ≤ 0)

/-- The index-tagged array `array.map((el, index) => [el, index])` of
`stableSort`. -/
def tagged (array : List α) : List (α × ℕ) :=
  array.enum.map fun p => (p.2, p.1)

/-- The tagged array after `.sort(...)`, before the final tag-stripping
`map`. -/
def taggedSort (array : List α) (comparator : α → α → ℤ) : List (α × ℕ) :=
  (tagged array).mergeSort (tagLe comparator)

/-- The `stableSort(array, comparator)` function of Flights.tsx: tag each
element with its index, sort by (comparator, index), strip the tags. -/
def stableSort (array : List α) (comparator : α → α → ℤ) : List α :=
  (taggedSort array comparator).map fun el => el.1

/-! ## Flights view-model records and enrichment (Flights.tsx) -/

/-- The `Pilot` record of Flights.tsx. -/
structure Pilot where
  id : ℤ
  name : String
deriving DecidableEq

/-- The `Drone` record of Flights.tsx. -/
structure Drone where
  id : ℤ
  name : String
deriving DecidableEq

/-- The `FlightLocation` record of Flights.tsx. -/
structure FlightLocation where
  id : ℤ
  name : String
  latitude : ℚ
  longitude : ℚ
deriving DecidableEq

/-- The `Flight` record of Flights.tsx, restricted to the fields read by
the sorting/enrichment pipeline.  `pilot` and `drone` are optional here
because the enrichment step guards them with `?.`; `flight_data` keeps
only the telemetry timestamps, the one field the pipeline reads. -/
structure Flight where
  id : ℤ
  flight_date : String
  flight_location : Option FlightLocation
  pilot : Option Pilot
  drone : Option Drone
  is_valid : Bool
  duration : Option ℚ
  flight_data : List String
deriving DecidableEq

/-- The derived `SortableFlight` record with flattened sortable fields. -/
structure SortableFlight where
  id : ℤ
  pilot_name : String
  drone_name : String
  location_name : String
  duration : ℚ
  flight_date : String
  is_valid : Bool
deriving DecidableEq

/-- JavaScript `x || d` for an optional string `x`: `undefined` and the
empty string are falsy and yield the default. -/
def jsOrStr (v : Option String) (d : String) : String :=
  match v with
  | none => d
  | some s => if s = "" then d else s

/-- JavaScript `x || d` for an optional number `x`: `undefined` and `0`
are falsy and yield the default. -/
def jsOrNum (v : Option ℚ) (d : ℚ) : ℚ :=
  match v with
  | none => d
  | some q => if q = 0 then d else q

/-- The enrichment `map` inside `sortedFlights` of Flights.tsx: flatten
`pilot?.name || 'N/A'`, `drone?.name || 'N/A'`,
`flight_location?.name || 'ZZZ'`, `duration || 0`, and substitute the
first telemetry timestamp for `flight_date` when telemetry exists. -/
def enrichFlight (f : Flight) : SortableFlight :=
  { id := f.id
    pilot_name := jsOrStr (f.pilot.map Pilot.name) ("N/A")
    drone_name := jsOrStr (f.drone.map Drone.name) ("N/A")
    location_name := jsOrStr (f.flight_location.map FlightLocation.name) ("ZZZ")
    duration := jsOrNum f.duration 0
    flight_date :=
      match f.flight_data with
      | [] => f.flight_date
      | t :: _ => t
    is_valid := f.is_valid }

/-- The `sortedFlights` memo of Flights.tsx: enrich every fetched flight,
then stable-sort by the active comparator. -/
def sortedFlights (flights : List Flight) (order : Order)
    (orderBy : SortableFlight → JSVal) : List SortableFlight :=
  stableSort (flights.map enrichFlight) (getComparator order orderBy)

/-- Accessor for the `location_name` column, the `orderBy` key used when
sorting by location. -/
def locationNameField (s : SortableFlight) : JSVal :=
  .str s.location_name

/-! ## Flights view-model state and handlers (Flights.tsx) -/

/-- The `filters` state record of Flights.tsx. -/
structure FlightFilters where
  droneId : String
  locationId : String
  startDate : String
  endDate : String
deriving DecidableEq

/-- The view-model state touched by the filter and pagination handlers of
Flights.tsx: the filter record, the page index and the page size. -/
structure FlightsPageState where
  filters : FlightFilters
  page : ℕ
  rowsPerPage : ℕ
deriving DecidableEq

/-- The dynamic-key update `{ ...prev, [name]: value }` on the filter
record, for the four recognised filter keys. -/
def setFilterValue (f : FlightFilters) (name value : String) : FlightFilters :=
  if name = "droneId" then { f with droneId := value }
  else if name = "locationId" then { f with locationId := value }
  else if name = "startDate" then { f with startDate := value }
  else if name = "endDate" then { f with endDate := value }
  else f

/-- The `handleFilterInputChange` handler of Flights.tsx: it updates the
filter record and touches no other state. -/
def handleFilterInputChange (s : FlightsPageState) (name value : String) :
    FlightsPageState :=
  { s with filters := setFilterValue s.filters name value }

/-- The `handleFilterSelectChange` handler of Flights.tsx: same effect on
the state as the input-change handler. -/
def handleFilterSelectChange (s : FlightsPageState) (name value : String) :
    FlightsPageState :=
  { s with filters := setFilterValue s.filters name value }

/-- The `handleChangePage` handler of Flights.tsx. -/
def handleChangePage (s : FlightsPageState) (newPage : ℕ) : FlightsPageState :=
  { s with page := newPage }

/-- The `handleChangeRowsPerPage` handler of Flights.tsx: set the new
page size and reset the page index to 0. -/
def handleChangeRowsPerPage (s : FlightsPageState) (value : ℕ) :
    FlightsPageState :=
  { s with rowsPerPage := value, page := 0 }

/-- The `skip` offset computed by `fetchFlights` for the next request. -/
def fetchSkip (s : FlightsPageState) : ℕ :=
  s.page * s.rowsPerPage

/-! ## GPS point decimation (MapDisplay.tsx) -/

/-- A telemetry point as consumed by the map display, restricted to the
fields the decimation algorithm reads: the record id and the optional
coordinates.  The remaining optional telemetry fields (altitude, speed,
signal data) are never read by the algorithm. -/
structure FlightDataPoint where
  id : ℤ
  latitude : Option ℚ
  longitude : Option ℚ
deriving DecidableEq

/-- JavaScript truthiness of an optional numeric field: `undefined`/`null`
and `0` are falsy. -/
def optTruthy : Option ℚ → Bool
  | none => false
  | some q => q != 0

/-- Truthiness of both coordinates of a point, the guard
`point.latitude && point.longitude` of the decimation loop. -/
def pointTruthy (p : FlightDataPoint) : Bool :=
  optTruthy p.latitude && optTruthy p.longitude

/-- JavaScript `Math.atan2(y, x)` for finite arguments. -/
noncomputable def atan2 (y x : ℝ) : ℝ :=
  if 0 < x then Real.arctan (y / x)
  else if x < 0 ∧ 0 ≤ y then Real.arctan (y / x) + Real.pi
  else if x < 0 ∧ y < 0 then Real.arctan (y / x) - Real.pi
  else if x = 0 ∧ 0 < y then Real.pi / 2
  else if x = 0 ∧ y < 0 then -(Real.pi / 2)
  else 0

/-- The `haversineDistance(lat1, lon1, lat2, lon2)` function of
MapDisplay.tsx: great-circle distance in meters on a sphere of radius
6,371,000 m. -/
noncomputable def haversineDistance (lat1 lon1 lat2 lon2 : ℝ) : ℝ :=
  let R : ℝ := 6371000
  let phi1 := lat1 * Real.pi / 180
  let phi2 := lat2 * Real.pi / 180
  let deltaPhi := (lat2 - lat1) * Real.pi / 180
  let deltaLambda := (lon2 - lon1) * Real.pi / 180
  let a := Real.sin (deltaPhi / 2) * Real.sin (deltaPhi / 2) +
    Real.cos phi1 * Real.cos phi2 * Real.sin (deltaLambda / 2) * Real.sin (deltaLambda / 2)
  let c := 2 * atan2 (Real.sqrt a) (Real.sqrt (1 - a))
  R * c

/-- The haversine distance between two points of the track, applied to
the coordinate values (which the loop guard has established to be
present). -/
noncomputable def pointDist (p q : FlightDataPoint) : ℝ :=
  haversineDistance ((p.latitude.getD 0 : ℚ) : ℝ) ((p.longitude.getD 0 : ℚ) : ℝ)
    ((q.latitude.getD 0 : ℚ) : ℝ) ((q.longitude.getD 0 : ℚ) : ℝ)

/-- One iteration of the decimation `for` loop of MapDisplay.tsx.  The
state is the pair (`lastPoint`, `filteredPoints`).  The current point is
pushed, and the reference advanced, only when both points have truthy
coordinates and the distance from the last kept point is at least 10 m.
The distance function is a parameter so that the loop's structural
properties can be proved independently of the trigonometry. -/
noncomputable def decimStep (dist : FlightDataPoint → FlightDataPoint → ℝ)
    (st : FlightDataPoint × List FlightDataPoint) (currentPoint : FlightDataPoint) :
    FlightDataPoint × List FlightDataPoint :=
  if pointTruthy currentPoint && pointTruthy st.1 then
    let distance := dist st.1 currentPoint
    if 10 ≤ distance then (currentPoint, st.2 ++ [currentPoint]) else st
  else st

/-- The `validFlightData` memo of MapDisplay.tsx: drop the points missing
a latitude or a longitude. -/
def validFlightData (flightData : List FlightDataPoint) : List FlightDataPoint :=
  flightData.filter fun p => p.latitude.isSome && p.longitude.isSome

/-- The `intelligentPoints` memo of MapDisplay.tsx, parameterized by the
distance function: return short tracks unchanged, otherwise keep the
first point, run the distance loop, and append the last valid point when
its id differs from the last kept point's id. -/
noncomputable def intelligentPointsWith (dist : FlightDataPoint → FlightDataPoint → ℝ)
    (flightData : List FlightDataPoint) : List FlightDataPoint :=
  match validFlightData flightData with
  | [] => []
  | [p] => [p]
  | p0 :: q :: rest =>
    let st := (q :: rest).foldl (decimStep dist) (p0, [p0])
    let lastValid := (q :: rest).getLastD p0
    if lastValid.id ≠ st.1.id then st.2 ++ [lastValid] else st.2

/-- The `intelligentPoints` memo of MapDisplay.tsx with the haversine
distance, as in the source. -/
noncomputable def intelligentPoints : List FlightDataPoint → List FlightDataPoint :=
  intelligentPointsWith pointDist

/-! ## Fixtures: concrete tracks -/

/-- North-pole point, id 1. -/
def cPoleA : FlightDataPoint := ⟨1, some 90, some 90⟩

/-- Equator point with latitude 0 (falsy), id 2. -/
def cZeroLat : FlightDataPoint := ⟨2, some 0, some 90⟩

/-- North-pole point, id 3 (same coordinates as `cPoleA`). -/
def cPoleB : FlightDataPoint := ⟨3, some 90, some 90⟩

/-- Pole-hopping track point, id 1 (north pole). -/
def wq0 : FlightDataPoint := ⟨1, some 90, some 90⟩

/-- Pole-hopping track point, id 2 (south pole). -/
def wq1 : FlightDataPoint := ⟨2, some (-90), some 90⟩

/-- Pole-hopping track point, id 3 (north pole). -/
def wq2 : FlightDataPoint := ⟨3, some 90, some 90⟩

/-- Pole-hopping track point, id 4 (south pole). -/
def wq3 : FlightDataPoint := ⟨4, some (-90), some 90⟩

/-- Clustered track point, id 1. -/
def cl1 : FlightDataPoint := ⟨1, some 45, some 45⟩

/-- Clustered track point, id 2 (same coordinates). -/
def cl2 : FlightDataPoint := ⟨2, some 45, some 45⟩

/-- Clustered track point, id 3 (same coordinates). -/
def cl3 : FlightDataPoint := ⟨3, some 45, some 45⟩

/-- A single valid track point, id 7. -/
def wSolo : FlightDataPoint := ⟨7, some 45, some 45⟩

/-- Track head with latitude 0, id 1. -/
def zEnd0 : FlightDataPoint := ⟨1, some 0, some 90⟩

/-- Truthy track tail point, id 2. -/
def zEnd1 : FlightDataPoint := ⟨2, some 90, some 90⟩

/-! ## Fixtures: records and comparators for the sorting claims -/

/-- A minimal record with one sortable string field. -/
structure NameRecord where
  name : String
deriving DecidableEq

/-- Accessor for the `name` field. -/
def nameField (r : NameRecord) : JSVal :=
  .str r.name

/-- The scenario records `[{name:"b"},{name:"a"},{name:"a"}]`. -/
def demoRecords : List NameRecord := [⟨"b"⟩, ⟨"a"⟩, ⟨"a"⟩]

/-- The ascending comparator on the `name` field. -/
def cName : NameRecord → NameRecord → ℤ :=
  getComparator Order.asc nameField

/-- An inconsistent comparison function (it violates transitivity:
0 < 1 and 1 ~ 2 but 0 > 2). -/
def cBad : ℕ → ℕ → ℤ := fun a b =>
  if a = 0 ∧ b = 1 then -1
  else if a = 1 ∧ b = 0 then 1
  else if a = 0 ∧ b = 2 then 1
  else if a = 2 ∧ b = 0 then -1
  else 0

/-- The constant comparison function 1, which is inconsistent (it reports
each of two elements as greater than the other). -/
def alwaysGreater : ℕ → ℕ → ℤ := fun _ _ => 1

/-- A flight location named with a lowercase initial. -/
def locAlpha : FlightLocation := ⟨11, "alpha", 1, 1⟩

/-- A flight assigned to the location `alpha`. -/
def fAlpha : Flight := ⟨1, "2024-01-01", some locAlpha, none, none, true, none, []⟩

/-- A flight with no assigned location. -/
def fNoLoc : Flight := ⟨2, "2024-01-02", none, none, none, true, none, []⟩

/-- A flight with no pilot, drone, location or duration. -/
def fBare : Flight := ⟨3, "2024-01-03", none, none, none, true, none, []⟩

/-! ## Consistent comparison functions -/

/-- ECMA-262 consistency of a comparison function: sign-antisymmetry and
transitivity of the induced total preorder.  `Array.prototype.sort`
guarantees a sorted, stable result only for consistent comparators. -/
structure ConsistentComparator (c : α → α → ℤ) : Prop where
  zero_symm : ∀ a b, c a b = 0 → c b a = 0
  neg_of_pos : ∀ a b, 0 < c a b → c b a < 0
  pos_of_neg : ∀ a b, c a b < 0 → 0 < c b a
  trans_neg : ∀ a b d, c a b < 0 → c b d < 0 → c a d < 0
  trans_neg_zero : ∀ a b d, c a b < 0 → c b d = 0 → c a d < 0
  trans_zero_neg : ∀ a b d, c a b = 0 → c b d < 0 → c a d < 0
  trans_zero : ∀ a b d, c a b = 0 → c b d = 0 → c a d = 0

/-- An accessor that yields a string for every record (a uniformly typed
string column). -/
def strTyped (f : α → JSVal) : Prop := ∀ a, ∃ s, f a = JSVal.str s

/-! ## Auxiliary definitions for the proofs -/

/-- Position of the first occurrence of an element in a list. -/
def posIn [DecidableEq β] (x : β) (l : List β) : ℕ :=
  List.indexOf x l

/-- The loop invariant: the accumulator is nonempty, starts with the
first valid point, ends with the reference point, the reference point is
a valid point, every accumulated point after the head is truthy, and
consecutive accumulated points are at least 10 m apart. -/
def DecimInv (dist : FlightDataPoint → FlightDataPoint → ℝ)
    (valids : List FlightDataPoint) (p0 : FlightDataPoint)
    (st : FlightDataPoint × List FlightDataPoint) : Prop :=
  st.2 ≠ [] ∧ st.2.head? = some p0 ∧ st.2.getLast? = some st.1 ∧
  st.1 ∈ valids ∧ st.1 ∈ st.2 ∧ (∀ x ∈ st.2.drop 1, pointTruthy x = true) ∧
  List.Chain' (fun u v => 10 ≤ dist u v) st.2

/-! ## Order-theoretic facts about the string comparison -/

/-- Code-unit comparison is irreflexive. -/
theorem charListLt_irrefl (a : List Char) : charListLt a a = false := by
  induction a with
  | nil => rfl
  | cons x xs ih => simp [charListLt, ih]

/-- Code-unit comparison is asymmetric. -/
theorem charListLt_asymm {a b : List Char} (h : charListLt a b = true) :
    charListLt b a = false := by
  induction a generalizing b with
  | nil =>
    cases b with
    | nil => simp [charListLt] at h
    | cons y ys => simp [charListLt]
  | cons x xs ih =>
    cases b with
    | nil => simp [charListLt] at h
    | cons y ys =>
      simp only [charListLt] at h ⊢
      by_cases hxy : x.toNat < y.toNat
      · simp [hxy, Nat.lt_asymm hxy, Nat.ne_of_gt hxy]
      · by_cases hyx : y.toNat < x.toNat
        · simp [hxy, hyx] at h
        · simp only [hxy, hyx, if_false, if_true] at h ⊢
          simp [ih h]

/-- Code-unit comparison is transitive. -/
theorem charListLt_trans {a b c : List Char} (hab : charListLt a b = true)
    (hbc : charListLt b c = true) : charListLt a c = true := by
  induction a generalizing b c with
  | nil =>
    cases c with
    | nil =>
      cases b with
      | nil => simp [charListLt] at hab
      | cons y ys => simp [charListLt] at hbc
    | cons z zs => simp [charListLt]
  | cons x xs ih =>
    cases b with
    | nil => simp [charListLt] at hab
    | cons y ys =>
      cases c with
      | nil => simp [charListLt] at hbc
      | cons z zs =>
        simp only [charListLt] at hab hbc ⊢
        by_cases hxy : x.toNat < y.toNat
        · by_cases hyz : y.toNat < z.toNat
          · simp [Nat.lt_trans hxy hyz]
          · by_cases hzy : z.toNat < y.toNat
            · simp [hyz, hzy] at hbc
            · have : y.toNat = z.toNat :=
                Nat.le_antisymm (Nat.le_of_not_lt hzy) (Nat.le_of_not_lt hyz)
              simp [this ▸ hxy]
        · by_cases hyx : y.toNat < x.toNat
          · simp [hxy, hyx] at hab
          · have hxy2 : x.toNat = y.toNat :=
              Nat.le_antisymm (Nat.le_of_not_lt hyx) (Nat.le_of_not_lt hxy)
            simp only [hxy, hyx, if_false, if_true] at hab
            by_cases hyz : y.toNat < z.toNat
            · simp [hxy2 ▸ hyz]
            · by_cases hzy : z.toNat < y.toNat
              · simp [hyz, hzy] at hbc
              · simp only [hyz, hzy, if_false, if_true] at hbc
                have h1 : ¬ x.toNat < z.toNat := by omega
                have h2 : ¬ z.toNat < x.toNat := by omega
                simp [h1, h2, ih hab hbc]

/-- Code-unit comparison is connected: mutually incomparable sequences
are equal. -/
theorem charListLt_conn {a b : List Char} (hab : charListLt a b = false)
    (hba : charListLt b a = false) : a = b := by
  induction a generalizing b with
  | nil =>
    cases b with
    | nil => rfl
    | cons y ys => simp [charListLt] at hab
  | cons x xs ih =>
    cases b with
    | nil => simp [charListLt] at hba
    | cons y ys =>
      simp only [charListLt] at hab hba
      by_cases hxy : x.toNat < y.toNat
      · simp [hxy] at hab
      · by_cases hyx : y.toNat < x.toNat
        · simp [hyx] at hba
        · simp only [hxy, hyx, if_false, if_true] at hab hba
          have hx : x = y := by
            have : x.toNat = y.toNat := by omega
            unfold Char.toNat at this
            exact Char.eq_of_val_eq (UInt32.toNat.inj this)
          rw [hx, ih hab hba]

/-- JavaScript string comparison is asymmetric. -/
theorem jsStrLt_asymm {a b : String} (h : jsStrLt a b = true) : jsStrLt b a = false :=
  charListLt_asymm h

/-- JavaScript string comparison is transitive. -/
theorem jsStrLt_trans {a b c : String} (hab : jsStrLt a b = true) (hbc : jsStrLt b c = true) :
    jsStrLt a c = true :=
  charListLt_trans hab hbc

/-- JavaScript string comparison is connected. -/
theorem jsStrLt_conn {a b : String} (hab : jsStrLt a b = false) (hba : jsStrLt b a = false) :
    a = b := by
  apply String.ext
  exact charListLt_conn hab hba

/-- Exhaustive case analysis of the result of `descendingComparator`. -/
theorem descendingComparator_cases (a b : α) (f : α → JSVal) :
    (descendingComparator a b f = -1 ∧ jsLt (f b) (f a) = true) ∨
    (descendingComparator a b f = 1 ∧ jsLt (f b) (f a) = false ∧ jsLt (f a) (f b) = true) ∨
    (descendingComparator a b f = 0 ∧ jsLt (f b) (f a) = false ∧ jsLt (f a) (f b) = false) := by
  unfold descendingComparator
  by_cases h1 : jsLt (f b) (f a) = true
  · simp [h1]
  · by_cases h2 : jsLt (f a) (f b) = true
    · simp [h1, h2]
    · simp at h1 h2
      simp [h1, h2]

/-- The descending comparator over a uniformly string-typed column is a
consistent comparison function. -/
theorem consistent_descendingComparator_str (f : α → JSVal) (hf : strTyped f) :
    ConsistentComparator (fun a b => descendingComparator a b f) := by
  have hasymm : ∀ x y : α, jsLt (f x) (f y) = true → jsLt (f y) (f x) = false := by
    intro x y h
    obtain ⟨sx, hx⟩ := hf x
    obtain ⟨sy, hy⟩ := hf y
    rw [hx, hy] at h ⊢
    exact jsStrLt_asymm h
  have htrans : ∀ x y z : α, jsLt (f x) (f y) = true → jsLt (f y) (f z) = true →
      jsLt (f x) (f z) = true := by
    intro x y z h1 h2
    obtain ⟨sx, hx⟩ := hf x
    obtain ⟨sy, hy⟩ := hf y
    obtain ⟨sz, hz⟩ := hf z
    rw [hx, hy] at h1
    rw [hy, hz] at h2
    rw [hx, hz]
    exact jsStrLt_trans h1 h2
  have hconn : ∀ x y : α, jsLt (f x) (f y) = false → jsLt (f y) (f x) = false →
      f x = f y := by
    intro x y h1 h2
    obtain ⟨sx, hx⟩ := hf x
    obtain ⟨sy, hy⟩ := hf y
    rw [hx, hy] at h1
    rw [hy, hx] at h2
    rw [hx, hy, jsStrLt_conn h1 h2]
  constructor
  · intro a b h
    rcases descendingComparator_cases a b f with ⟨h0, _⟩ | ⟨h0, _⟩ | ⟨h0, hba, hab⟩
    · omega
    · omega
    · rcases descendingComparator_cases b a f with ⟨h1, hz⟩ | ⟨h1, _, hz⟩ | ⟨h1, _⟩
      · rw [hz] at hab; exact absurd hab (by simp)
      · rw [hz] at hba; exact absurd hba (by simp)
      · exact h1
  · intro a b h
    rcases descendingComparator_cases a b f with ⟨h0, _⟩ | ⟨h0, hba, hab⟩ | ⟨h0, _⟩
    · omega
    · rcases descendingComparator_cases b a f with ⟨h1, _⟩ | ⟨h1, _, hz⟩ | ⟨h1, hz, _⟩
      · omega
      · rw [hasymm _ _ hab] at hz; exact absurd hz (by simp)
      · rw [hz] at hab; exact absurd hab (by simp)
    · omega
  · intro a b h
    rcases descendingComparator_cases a b f with ⟨h0, hab⟩ | ⟨h0, _⟩ | ⟨h0, _⟩
    · rcases descendingComparator_cases b a f with ⟨h1, hz⟩ | ⟨h1, _, _⟩ | ⟨h1, _, hz⟩
      · rw [hasymm _ _ hab] at hz; exact absurd hz (by simp)
      · omega
      · rw [hz] at hab; exact absurd hab (by simp)
    · omega
    · omega
  · intro a b d h1 h2
    rcases descendingComparator_cases a b f with ⟨_, hab⟩ | ⟨h0, _⟩ | ⟨h0, _⟩
    · rcases descendingComparator_cases b d f with ⟨_, hbd⟩ | ⟨h3, _⟩ | ⟨h3, _⟩
      · rcases descendingComparator_cases a d f with ⟨h4, _⟩ | ⟨h4, hz, _⟩ | ⟨h4, hz, _⟩
        · omega
        · rw [htrans _ _ _ hbd hab] at hz; exact absurd hz (by simp)
        · rw [htrans _ _ _ hbd hab] at hz; exact absurd hz (by simp)
      · omega
      · omega
    · omega
    · omega
  · intro a b d h1 h2
    rcases descendingComparator_cases a b f with ⟨_, hab⟩ | ⟨h0, _⟩ | ⟨h0, _⟩
    · rcases descendingComparator_cases b d f with ⟨h3, _⟩ | ⟨h3, _⟩ | ⟨_, hdb, hbd⟩
      · omega
      · omega
      · have hfd : f d = f b := hconn _ _ hdb hbd
        rcases descendingComparator_cases a d f with ⟨h4, _⟩ | ⟨h4, hz, _⟩ | ⟨h4, hz, _⟩
        · omega
        · rw [hfd] at hz; rw [hz] at hab; exact absurd hab (by simp)
        · rw [hfd] at hz; rw [hz] at hab; exact absurd hab (by simp)
    · omega
    · omega
  · intro a b d h1 h2
    rcases descendingComparator_cases a b f with ⟨h0, _⟩ | ⟨h0, _⟩ | ⟨_, hba, hab⟩
    · omega
    · omega
    · have hfa : f a = f b := hconn _ _ hab hba
      rcases descendingComparator_cases b d f with ⟨_, hdb⟩ | ⟨h3, _⟩ | ⟨h3, _⟩
      · rcases descendingComparator_cases a d f with ⟨h4, _⟩ | ⟨h4, hz, _⟩ | ⟨h4, hz, _⟩
        · omega
        · rw [hfa] at hz; rw [hz] at hdb; exact absurd hdb (by simp)
        · rw [hfa] at hz; rw [hz] at hdb; exact absurd hdb (by simp)
      · omega
      · omega
  · intro a b d h1 h2
    rcases descendingComparator_cases a b f with ⟨h0, _⟩ | ⟨h0, _⟩ | ⟨_, hba, hab⟩
    · omega
    · omega
    · have hfa : f a = f b := hconn _ _ hab hba
      rcases descendingComparator_cases b d f with ⟨h3, _⟩ | ⟨h3, _⟩ | ⟨_, hdb, hbd⟩
      · omega
      · omega
      · rcases descendingComparator_cases a d f with ⟨h4, hz⟩ | ⟨h4, _, hz⟩ | ⟨h4, _⟩
        · rw [hfa] at hz; rw [hz] at hdb; exact absurd hdb (by simp)
        · rw [hfa] at hz; rw [hz] at hbd; exact absurd hbd (by simp)
        · exact h4

/-- Consistency is preserved by sign reversal (ascending from
descending). -/
theorem consistent_neg {c : α → α → ℤ} (hc : ConsistentComparator c) :
    ConsistentComparator (fun a b => -(c a b)) := by
  constructor
  · intro a b h
    have := hc.zero_symm a b (by omega)
    omega
  · intro a b h
    have := hc.pos_of_neg a b (by omega)
    omega
  · intro a b h
    have := hc.neg_of_pos a b (by omega)
    omega
  · intro a b d h1 h2
    have hba := hc.neg_of_pos a b (by omega)
    have hdb := hc.neg_of_pos b d (by omega)
    have := hc.pos_of_neg d a (hc.trans_neg d b a hdb hba)
    omega
  · intro a b d h1 h2
    have hba := hc.neg_of_pos a b (by omega)
    have hdb := hc.zero_symm b d (by omega)
    have := hc.pos_of_neg d a (hc.trans_zero_neg d b a hdb hba)
    omega
  · intro a b d h1 h2
    have hba := hc.zero_symm a b (by omega)
    have hdb := hc.neg_of_pos b d (by omega)
    have := hc.pos_of_neg d a (hc.trans_neg_zero d b a hdb hba)
    omega
  · intro a b d h1 h2
    have hba := hc.zero_symm a b (by omega)
    have hdb := hc.zero_symm b d (by omega)
    have := hc.zero_symm d a (hc.trans_zero d b a hdb hba)
    omega

/-- Both directions of `getComparator` over a string-typed column are
consistent comparison functions. -/
theorem consistent_getComparator (ord : Order) (f : α → JSVal) (hf : strTyped f) :
    ConsistentComparator (getComparator ord f) := by
  cases ord with
  | desc => exact consistent_descendingComparator_str f hf
  | asc => exact consistent_neg (consistent_descendingComparator_str f hf)

/-! ## Properties of the tagged sort -/

/-- Unfolding of the sort callback: `a` sorts no later than `b` exactly
when the comparator is negative, or ties and the original index of `a`
is not larger. -/
theorem tagLe_iff (c : α → α → ℤ) (a b : α × ℕ) :
    tagLe c a b = true ↔ (c a.1 b.1 < 0 ∨ (c a.1 b.1 = 0 ∧ a.2 ≤ b.2)) := by
  unfold tagLe
  by_cases h : c a.1 b.1 = 0
  · simp [h]
  · simp [h]
    omega

/-- The sort callback is total for a consistent comparator. -/
theorem tagLe_total {c : α → α → ℤ} (hc : ConsistentComparator c) (a b : α × ℕ) :
    (tagLe c a b || tagLe c b a) = true := by
  rw [Bool.or_eq_true, tagLe_iff, tagLe_iff]
  rcases lt_trichotomy (c a.1 b.1) 0 with h | h | h
  · exact Or.inl (Or.inl h)
  · have h2 := hc.zero_symm a.1 b.1 h
    by_cases hn : a.2 ≤ b.2
    · exact Or.inl (Or.inr ⟨h, hn⟩)
    · exact Or.inr (Or.inr ⟨h2, by omega⟩)
  · exact Or.inr (Or.inl (hc.neg_of_pos a.1 b.1 h))

/-- The sort callback is transitive for a consistent comparator. -/
theorem tagLe_trans {c : α → α → ℤ} (hc : ConsistentComparator c) (a b d : α × ℕ)
    (hab : tagLe c a b = true) (hbd : tagLe c b d = true) : tagLe c a d = true := by
  rw [tagLe_iff] at hab hbd ⊢
  rcases hab with h1 | ⟨h1, hi1⟩
  · rcases hbd with h2 | ⟨h2, _⟩
    · exact Or.inl (hc.trans_neg a.1 b.1 d.1 h1 h2)
    · exact Or.inl (hc.trans_neg_zero a.1 b.1 d.1 h1 h2)
  · rcases hbd with h2 | ⟨h2, hi2⟩
    · exact Or.inl (hc.trans_zero_neg a.1 b.1 d.1 h1 h2)
    · exact Or.inr ⟨hc.trans_zero a.1 b.1 d.1 h1 h2, le_trans hi1 hi2⟩

/-- Length of the tagged array. -/
theorem tagged_length (l : List α) : (tagged l).length = l.length := by
  simp [tagged]

/-- The tagged array holds each element with its original index. -/
theorem tagged_get (l : List α) (i : ℕ) (h : i < l.length)
    (h2 : i < (tagged l).length) :
    (tagged l).get ⟨i, h2⟩ = (l.get ⟨i, h⟩, i) := by
  simp [tagged, List.get_eq_getElem]

/-- The tagged array has no duplicate entries (the indices are distinct). -/
theorem tagged_nodup (l : List α) : (tagged l).Nodup := by
  have hmap : (tagged l).map Prod.snd = List.range l.length := by
    rw [tagged, List.map_map]
    have hc : (Prod.snd ∘ fun p : ℕ × α => (p.2, p.1)) = Prod.fst := rfl
    rw [hc, List.enum_map_fst]
  exact List.Nodup.of_map Prod.snd (hmap ▸ List.nodup_range l.length)

/-- Every tagged element occurs in the sorted tagged array. -/
theorem mem_taggedSort (l : List α) (c : α → α → ℤ) (i : ℕ) (h : i < l.length) :
    (l.get ⟨i, h⟩, i) ∈ taggedSort l c := by
  rw [taggedSort]
  refine (List.mergeSort_perm (tagged l) (tagLe c)).mem_iff.mpr ?hm
  have h2 : i < (tagged l).length := by rw [tagged_length]; exact h
  rw [← tagged_get l i h h2]
  exact List.get_mem _ _ _

/-- The sorted tagged array has no duplicate entries. -/
theorem taggedSort_nodup (l : List α) (c : α → α → ℤ) : (taggedSort l c).Nodup :=
  ((List.mergeSort_perm (tagged l) (tagLe c)).nodup_iff).mpr (tagged_nodup l)

/-- For a consistent comparator the sorted tagged array is sorted by the
callback. -/
theorem taggedSort_sorted {c : α → α → ℤ} (hc : ConsistentComparator c) (l : List α) :
    (taggedSort l c).Pairwise (fun a b => tagLe c a b = true) :=
  List.sorted_mergeSort (fun a b d => tagLe_trans hc a b d) (fun a b => tagLe_total hc a b)
    (tagged l)

/-- For a consistent comparator the stripped output is pairwise
non-descending under the comparator. -/
theorem stableSort_sorted_le {c : α → α → ℤ} (hc : ConsistentComparator c) (l : List α) :
    (stableSort l c).Pairwise (fun u v => c u v ≤ 0) := by
  rw [stableSort]
  refine List.Pairwise.map _ ?himp (taggedSort_sorted hc l)
  intro a b hab
  rw [tagLe_iff] at hab
  omega

/-- Build pairwise order on the tagged array from a positional property
of the underlying array. -/
theorem tagged_pairwise_of (l : List α) (S : α × ℕ → α × ℕ → Prop)
    (h : ∀ (i j : ℕ) (hi : i < l.length) (hj : j < l.length), i < j →
      S (l.get ⟨i, hi⟩, i) (l.get ⟨j, hj⟩, j)) : (tagged l).Pairwise S := by
  rw [List.pairwise_iff_get]
  intro a b hab
  have hlen := tagged_length l
  have ha : a.1 < l.length := by have := a.2; omega
  have hb : b.1 < l.length := by have := b.2; omega
  have ha2 : (tagged l).get a = (l.get ⟨a.1, ha⟩, a.1) := by
    have := tagged_get l a.1 ha a.2
    simpa using this
  have hb2 : (tagged l).get b = (l.get ⟨b.1, hb⟩, b.1) := by
    have := tagged_get l b.1 hb b.2
    simpa using this
  rw [ha2, hb2]
  exact h a.1 b.1 ha hb hab

/-- Stability of `stableSort` for a consistent comparator: two records at
input positions `i < j` that compare equal keep their relative order in
the sorted tagged array (whose first projection is the `stableSort`
output). -/
theorem stableSort_stable [DecidableEq α] (l : List α) (c : α → α → ℤ)
    (hc : ConsistentComparator c) (i j : ℕ) (hi : i < l.length) (hj : j < l.length)
    (hij : i < j) (h0 : c (l.get ⟨i, hi⟩) (l.get ⟨j, hj⟩) = 0) :
    posIn (l.get ⟨i, hi⟩, i) (taggedSort l c) <
      posIn (l.get ⟨j, hj⟩, j) (taggedSort l c) := by
  have hmi : (l.get ⟨i, hi⟩, i) ∈ taggedSort l c := mem_taggedSort l c i hi
  have hmj : (l.get ⟨j, hj⟩, j) ∈ taggedSort l c := mem_taggedSort l c j hj
  have hpi : posIn (l.get ⟨i, hi⟩, i) (taggedSort l c) < (taggedSort l c).length :=
    List.indexOf_lt_length.mpr hmi
  have hpj : posIn (l.get ⟨j, hj⟩, j) (taggedSort l c) < (taggedSort l c).length :=
    List.indexOf_lt_length.mpr hmj
  have hgi : (taggedSort l c).get ⟨posIn (l.get ⟨i, hi⟩, i) (taggedSort l c), hpi⟩ =
      (l.get ⟨i, hi⟩, i) := by
    rw [List.get_eq_getElem]
    exact List.getElem_indexOf hpi
  have hgj : (taggedSort l c).get ⟨posIn (l.get ⟨j, hj⟩, j) (taggedSort l c), hpj⟩ =
      (l.get ⟨j, hj⟩, j) := by
    rw [List.get_eq_getElem]
    exact List.getElem_indexOf hpj
  have hne : (l.get ⟨i, hi⟩, i) ≠ (l.get ⟨j, hj⟩, j) := by
    intro hEq
    have : i = j := congrArg Prod.snd hEq
    omega
  have hpne : posIn (l.get ⟨i, hi⟩, i) (taggedSort l c) ≠
      posIn (l.get ⟨j, hj⟩, j) (taggedSort l c) := by
    intro hEq
    apply hne
    rw [← hgi, ← hgj]
    congr 1
    exact Fin.ext hEq
  by_contra hle
  have hlt : (⟨posIn (l.get ⟨j, hj⟩, j) (taggedSort l c), hpj⟩ : Fin (taggedSort l c).length) <
      ⟨posIn (l.get ⟨i, hi⟩, i) (taggedSort l c), hpi⟩ := by
    simp only [Fin.mk_lt_mk]
    omega
  have hpair := (List.pairwise_iff_get.mp (taggedSort_sorted hc l)) _ _ hlt
  rw [hgi, hgj] at hpair
  rw [tagLe_iff] at hpair
  dsimp only at hpair
  have hz := hc.zero_symm _ _ h0
  rcases hpair with h | ⟨_, h⟩
  · omega
  · omega

/-- Idempotence of `stableSort` for a consistent comparator: the output
of a sort is already sorted under the callback with its fresh tags, so a
second sort returns it unchanged. -/
theorem stableSort_idem_of_consistent (l : List α) (c : α → α → ℤ)
    (hc : ConsistentComparator c) :
    stableSort (stableSort l c) c = stableSort l c := by
  have hsorted2 : (tagged (stableSort l c)).Pairwise (fun a b => tagLe c a b = true) := by
    apply tagged_pairwise_of
    intro i j hi hj hij
    have hp := (List.pairwise_iff_get.mp (stableSort_sorted_le hc l)) ⟨i, hi⟩ ⟨j, hj⟩ hij
    rw [tagLe_iff]
    rcases lt_or_eq_of_le hp with h | h
    · exact Or.inl h
    · exact Or.inr ⟨h, by omega⟩
  have hfix : taggedSort (stableSort l c) c = tagged (stableSort l c) :=
    List.mergeSort_of_sorted hsorted2
  show (taggedSort (stableSort l c) c).map (fun el => el.1) = stableSort l c
  rw [hfix, tagged, List.map_map]
  have hcomp : ((fun (el : α × ℕ) => el.1) ∘ fun (p : ℕ × α) => (p.2, p.1)) = Prod.snd := rfl
  rw [hcomp, List.enum_map_snd]

/-! ## Structural properties of the decimation loop -/

/-- Case analysis of one loop iteration: either the current point is
kept (pushed, reference advanced) because both points are truthy and the
distance is at least 10 m, or the state is unchanged. -/
theorem decimStep_cases (dist : FlightDataPoint → FlightDataPoint → ℝ)
    (st : FlightDataPoint × List FlightDataPoint) (cur : FlightDataPoint) :
    (decimStep dist st cur = (cur, st.2 ++ [cur]) ∧ pointTruthy cur = true ∧
      pointTruthy st.1 = true ∧ 10 ≤ dist st.1 cur) ∨
    (decimStep dist st cur = st ∧
      (pointTruthy cur = false ∨ pointTruthy st.1 = false ∨ ¬ 10 ≤ dist st.1 cur)) := by
  unfold decimStep
  by_cases h1 : (pointTruthy cur && pointTruthy st.1) = true
  · rw [if_pos h1]
    rw [Bool.and_eq_true] at h1
    by_cases h2 : 10 ≤ dist st.1 cur
    · left
      exact ⟨by rw [if_pos h2], h1.1, h1.2, h2⟩
    · right
      exact ⟨by rw [if_neg h2], Or.inr (Or.inr h2)⟩
  · rw [if_neg h1]
    right
    refine ⟨rfl, ?hre⟩
    simp only [Bool.and_eq_true, not_and_or, Bool.not_eq_true] at h1
    rcases h1 with h | h
    · exact Or.inl h
    · exact Or.inr (Or.inl h)

/-- Induction principle for the decimation fold: an invariant preserved
by every step over elements of the walked list holds of the result. -/
theorem foldl_decimStep_inv (dist : FlightDataPoint → FlightDataPoint → ℝ)
    (l : List FlightDataPoint) (Q : FlightDataPoint × List FlightDataPoint → Prop)
    (init : FlightDataPoint × List FlightDataPoint) (hinit : Q init)
    (hstep : ∀ st cur, cur ∈ l → Q st → Q (decimStep dist st cur)) :
    Q (l.foldl (decimStep dist) init) := by
  induction l generalizing init with
  | nil => exact hinit
  | cons a t ih =>
    exact ih (decimStep dist init a) (hstep init a (List.mem_cons_self a t) hinit)
      (fun st cur hm hq => hstep st cur (List.mem_cons_of_mem a hm) hq)

/-- The loop invariant is preserved by one iteration. -/
theorem decimInv_step (dist : FlightDataPoint → FlightDataPoint → ℝ)
    (valids : List FlightDataPoint) (p0 : FlightDataPoint)
    (st : FlightDataPoint × List FlightDataPoint) (cur : FlightDataPoint)
    (hcur : cur ∈ valids) (h : DecimInv dist valids p0 st) :
    DecimInv dist valids p0 (decimStep dist st cur) := by
  rcases decimStep_cases dist st cur with ⟨heq, ht, _, hd⟩ | ⟨heq, _⟩
  · rw [heq]
    obtain ⟨hne, hhead, hlast, hmemv, hmem, htail, hchain⟩ := h
    have hlen1 : 1 ≤ st.2.length := List.length_pos.mpr hne
    refine ⟨by simp, ?h2, ?h3, hcur, by simp, ?h6, ?h7⟩
    · show (st.2 ++ [cur]).head? = some p0
      cases hst : st.2 with
      | nil => exact absurd hst hne
      | cons a t =>
        rw [hst] at hhead
        simpa using hhead
    · show (st.2 ++ [cur]).getLast? = some cur
      exact List.getLast?_concat st.2
    · show ∀ x ∈ (st.2 ++ [cur]).drop 1, pointTruthy x = true
      intro x hx
      rw [List.drop_append_of_le_length hlen1] at hx
      rcases List.mem_append.mp hx with hx1 | hx2
      · exact htail x hx1
      · have hxc : x = cur := by simpa using hx2
        rw [hxc]
        exact ht
    · show List.Chain' (fun u v => 10 ≤ dist u v) (st.2 ++ [cur])
      rw [List.chain'_append]
      refine ⟨hchain, List.chain'_singleton cur, ?hlink⟩
      intro x hx y hy
      have hx2 : st.1 = x := by
        rw [hlast] at hx
        simpa using hx
      have hy2 : cur = y := by simpa using hy
      rw [← hx2, ← hy2]
      exact hd
  · rw [heq]
    exact h

/-- The invariant holds of the resulting loop state. -/
theorem decimInv_foldl (dist : FlightDataPoint → FlightDataPoint → ℝ)
    (p0 q : FlightDataPoint) (rest : List FlightDataPoint) :
    DecimInv dist (p0 :: q :: rest) p0
      ((q :: rest).foldl (decimStep dist) (p0, [p0])) := by
  apply foldl_decimStep_inv
  · refine ⟨by simp, rfl, rfl, List.mem_cons_self p0 (q :: rest), by simp, by simp, ?hch⟩
    exact List.chain'_singleton p0
  · intro st cur hm hq
    exact decimInv_step dist (p0 :: q :: rest) p0 st cur (List.mem_cons_of_mem p0 hm) hq

/-- Reduction of `intelligentPointsWith` on a track with at least two
valid points. -/
theorem intelligentPointsWith_eq_of_two (dist : FlightDataPoint → FlightDataPoint → ℝ)
    (pts : List FlightDataPoint) (p0 q : FlightDataPoint) (rest : List FlightDataPoint)
    (hv : validFlightData pts = p0 :: q :: rest) :
    intelligentPointsWith dist pts =
      (if ((q :: rest).getLastD p0).id ≠
          ((q :: rest).foldl (decimStep dist) (p0, [p0])).1.id then
        ((q :: rest).foldl (decimStep dist) (p0, [p0])).2 ++ [(q :: rest).getLastD p0]
      else ((q :: rest).foldl (decimStep dist) (p0, [p0])).2) := by
  rw [intelligentPointsWith, hv]

/-! ## Concrete haversine evaluations -/

/-- Arctangent branch at equal positive arguments. -/
theorem atan2_sqrt_half : atan2 (Real.sqrt (1 / 2)) (Real.sqrt (1 / 2)) = Real.pi / 4 := by
  have hpos : (0 : ℝ) < Real.sqrt (1 / 2) := Real.sqrt_pos.mpr (by norm_num)
  rw [atan2, if_pos hpos, div_self (ne_of_gt hpos), Real.arctan_one]

/-- Arctangent branch on the positive imaginary axis. -/
theorem atan2_one_zero : atan2 1 0 = Real.pi / 2 := by
  rw [atan2]
  norm_num

/-- The haversine distance from a point to itself is zero. -/
theorem haversine_self (la lo : ℝ) : haversineDistance la lo la lo = 0 := by
  simp [haversineDistance, atan2]

/-- The haversine distance from the north pole to the equator along a
meridian is a quarter great circle. -/
theorem haversine_pole_equator : haversineDistance 90 90 0 90 = 6371000 * (Real.pi / 2) := by
  have e1 : ((0 : ℝ) - 90) * Real.pi / 180 / 2 = -(Real.pi / 4) := by ring
  have e2 : ((90 : ℝ)) * Real.pi / 180 = Real.pi / 2 := by ring
  have e4 : ((90 : ℝ) - 90) * Real.pi / 180 / 2 = 0 := by ring
  have hs2 : Real.sin (-(Real.pi / 4)) * Real.sin (-(Real.pi / 4)) = 1 / 2 := by
    rw [Real.sin_neg, Real.sin_pi_div_four, neg_mul_neg, div_mul_div_comm,
      Real.mul_self_sqrt (by norm_num : (0 : ℝ) ≤ 2)]
    norm_num
  simp only [haversineDistance, e1, e2, e4, hs2, Real.cos_pi_div_two, Real.sin_zero]
  rw [show (1 : ℝ) / 2 + 0 * Real.cos (0 * Real.pi / 180) * 0 * 0 = 1 / 2 by ring,
    show (1 : ℝ) - 1 / 2 = 1 / 2 by norm_num, atan2_sqrt_half]
  ring

/-- The haversine distance from the north pole to the south pole is half
a great circle. -/
theorem haversine_pole_pole : haversineDistance 90 90 (-90) 90 = 6371000 * Real.pi := by
  have e1 : ((-90 : ℝ) - 90) * Real.pi / 180 / 2 = -(Real.pi / 2) := by ring
  have e2 : ((90 : ℝ)) * Real.pi / 180 = Real.pi / 2 := by ring
  have e4 : ((90 : ℝ) - 90) * Real.pi / 180 / 2 = 0 := by ring
  have hs2 : Real.sin (-(Real.pi / 2)) * Real.sin (-(Real.pi / 2)) = 1 := by
    rw [Real.sin_neg, Real.sin_pi_div_two]
    ring
  simp only [haversineDistance, e1, e2, e4, hs2, Real.cos_pi_div_two, Real.sin_zero]
  rw [show (1 : ℝ) + 0 * Real.cos (-90 * Real.pi / 180) * 0 * 0 = 1 by ring,
    show (1 : ℝ) - 1 = 0 by norm_num, Real.sqrt_zero, Real.sqrt_one, atan2_one_zero]
  ring

/-- The haversine distance from the south pole to the north pole is half
a great circle. -/
theorem haversine_pole_pole_rev : haversineDistance (-90) 90 90 90 = 6371000 * Real.pi := by
  have e1 : ((90 : ℝ) - -90) * Real.pi / 180 / 2 = Real.pi / 2 := by ring
  have e4 : ((90 : ℝ) - 90) * Real.pi / 180 / 2 = 0 := by ring
  have e5 : ((-90 : ℝ)) * Real.pi / 180 = -(Real.pi / 2) := by ring
  have hs2 : Real.sin (Real.pi / 2) * Real.sin (Real.pi / 2) = 1 := by
    rw [Real.sin_pi_div_two]
    ring
  simp only [haversineDistance, e1, e4, e5, hs2, Real.cos_neg, Real.cos_pi_div_two,
    Real.sin_zero]
  rw [show (1 : ℝ) + 0 * Real.cos (90 * Real.pi / 180) * 0 * 0 = 1 by ring,
    show (1 : ℝ) - 1 = 0 by norm_num, Real.sqrt_zero, Real.sqrt_one, atan2_one_zero]
  ring

/-- A quarter great circle of the Earth exceeds the 10 m threshold. -/
theorem quarter_circle_ge_ten : (10 : ℝ) ≤ 6371000 * (Real.pi / 2) := by
  nlinarith [Real.pi_gt_three]

/-- Half a great circle of the Earth exceeds the 10 m threshold. -/
theorem half_circle_ge_ten : (10 : ℝ) ≤ 6371000 * Real.pi := by
  nlinarith [Real.pi_gt_three]

/-! ## Evaluation helpers for the decimation loop -/

/-- A step that keeps the current point. -/
theorem decimStep_keep (dist : FlightDataPoint → FlightDataPoint → ℝ)
    (st : FlightDataPoint × List FlightDataPoint) (cur : FlightDataPoint)
    (h1 : pointTruthy cur = true) (h2 : pointTruthy st.1 = true)
    (hd : 10 ≤ dist st.1 cur) : decimStep dist st cur = (cur, st.2 ++ [cur]) := by
  unfold decimStep
  rw [if_pos (Bool.and_eq_true (pointTruthy cur) (pointTruthy st.1) ▸ And.intro h1 h2)]
  exact if_pos hd

/-- A step that skips because a coordinate is falsy. -/
theorem decimStep_skip_falsy (dist : FlightDataPoint → FlightDataPoint → ℝ)
    (st : FlightDataPoint × List FlightDataPoint) (cur : FlightDataPoint)
    (h : (pointTruthy cur && pointTruthy st.1) = false) : decimStep dist st cur = st := by
  unfold decimStep
  rw [if_neg]
  simp [h]

/-- A step that skips because the current point is within 10 m of the
last kept point. -/
theorem decimStep_skip_near (dist : FlightDataPoint → FlightDataPoint → ℝ)
    (st : FlightDataPoint × List FlightDataPoint) (cur : FlightDataPoint)
    (hd : ¬ 10 ≤ dist st.1 cur) : decimStep dist st cur = st := by
  unfold decimStep
  by_cases h1 : (pointTruthy cur && pointTruthy st.1) = true
  · rw [if_pos h1]
    exact if_neg hd
  · rw [if_neg h1]

/-- Distance between the two pole points of the pole-hopping track. -/
theorem pointDist_wq01 : pointDist wq0 wq1 = 6371000 * Real.pi := by
  have h : pointDist wq0 wq1 = haversineDistance 90 90 (-90) 90 := by
    norm_num [pointDist, wq0, wq1]
  rw [h, haversine_pole_pole]

/-- Distance south pole to north pole on the pole-hopping track. -/
theorem pointDist_wq12 : pointDist wq1 wq2 = 6371000 * Real.pi := by
  have h : pointDist wq1 wq2 = haversineDistance (-90) 90 90 90 := by
    norm_num [pointDist, wq1, wq2]
  rw [h, haversine_pole_pole_rev]

/-- Distance north pole to south pole on the pole-hopping track. -/
theorem pointDist_wq23 : pointDist wq2 wq3 = 6371000 * Real.pi := by
  have h : pointDist wq2 wq3 = haversineDistance 90 90 (-90) 90 := by
    norm_num [pointDist, wq2, wq3]
  rw [h, haversine_pole_pole]

/-- Distance from the pole to the falsy-latitude equator point. -/
theorem pointDist_pole_zero : pointDist cPoleA cZeroLat = 6371000 * (Real.pi / 2) := by
  have h : pointDist cPoleA cZeroLat = haversineDistance 90 90 0 90 := by
    norm_num [pointDist, cPoleA, cZeroLat]
  rw [h, haversine_pole_equator]

/-- The pole points with equal coordinates are 0 m apart. -/
theorem pointDist_pole_pole_same : pointDist cPoleA cPoleB = 0 := by
  have h : pointDist cPoleA cPoleB = haversineDistance 90 90 90 90 := by
    norm_num [pointDist, cPoleA, cPoleB]
  rw [h, haversine_self]

/-- Clustered points are 0 m apart. -/
theorem pointDist_cluster (p q : FlightDataPoint) (hp : p ∈ [cl1, cl2, cl3])
    (hq : q ∈ [cl1, cl2, cl3]) : pointDist p q = 0 := by
  have h : pointDist p q = haversineDistance 45 45 45 45 := by
    fin_cases hp <;> fin_cases hq <;> norm_num [pointDist, cl1, cl2, cl3]
  rw [h, haversine_self]

/-- Evaluation of the decimation on the pole-hopping track: every point
is kept by the loop and the final point needs no extra push. -/
theorem intelligentPoints_wq :
    intelligentPoints [wq0, wq1, wq2, wq3] = [wq0, wq1, wq2, wq3] := by
  have hv : validFlightData [wq0, wq1, wq2, wq3] = wq0 :: wq1 :: [wq2, wq3] := by decide
  show intelligentPointsWith pointDist [wq0, wq1, wq2, wq3] = [wq0, wq1, wq2, wq3]
  rw [intelligentPointsWith_eq_of_two pointDist _ wq0 wq1 [wq2, wq3] hv]
  have h1 : decimStep pointDist (wq0, [wq0]) wq1 = (wq1, [wq0, wq1]) :=
    decimStep_keep _ _ _ (by decide) (by decide) (pointDist_wq01 ▸ half_circle_ge_ten)
  have h2 : decimStep pointDist (wq1, [wq0, wq1]) wq2 = (wq2, [wq0, wq1, wq2]) :=
    decimStep_keep _ _ _ (by decide) (by decide) (pointDist_wq12 ▸ half_circle_ge_ten)
  have h3 : decimStep pointDist (wq2, [wq0, wq1, wq2]) wq3 = (wq3, [wq0, wq1, wq2, wq3]) :=
    decimStep_keep _ _ _ (by decide) (by decide) (pointDist_wq23 ▸ half_circle_ge_ten)
  simp only [List.foldl, h1, h2, h3]
  rw [if_neg (by decide)]

/-- Evaluation of the decimation on the clustered track: no point is kept
by the loop and the last point is pushed by the id check. -/
theorem intelligentPoints_cluster : intelligentPoints [cl1, cl2, cl3] = [cl1, cl3] := by
  have hv : validFlightData [cl1, cl2, cl3] = cl1 :: cl2 :: [cl3] := by decide
  show intelligentPointsWith pointDist [cl1, cl2, cl3] = [cl1, cl3]
  rw [intelligentPointsWith_eq_of_two pointDist _ cl1 cl2 [cl3] hv]
  have h1 : decimStep pointDist (cl1, [cl1]) cl2 = (cl1, [cl1]) := by
    apply decimStep_skip_near
    rw [show pointDist (cl1, ([cl1] : List FlightDataPoint)).1 cl2 = 0 from
      pointDist_cluster cl1 cl2 (by decide) (by decide)]
    norm_num
  have h2 : decimStep pointDist (cl1, [cl1]) cl3 = (cl1, [cl1]) := by
    apply decimStep_skip_near
    rw [show pointDist (cl1, ([cl1] : List FlightDataPoint)).1 cl3 = 0 from
      pointDist_cluster cl1 cl3 (by decide) (by decide)]
    norm_num
  simp only [List.foldl, h1, h2]
  rw [if_pos (by decide)]
  rfl

/-- Evaluation of the decimation on the track whose head has latitude 0:
the loop skips the second point (falsy reference) and the id check
restores it. -/
theorem intelligentPoints_zEnd : intelligentPoints [zEnd0, zEnd1] = [zEnd0, zEnd1] := by
  have hv : validFlightData [zEnd0, zEnd1] = zEnd0 :: zEnd1 :: [] := by decide
  show intelligentPointsWith pointDist [zEnd0, zEnd1] = [zEnd0, zEnd1]
  rw [intelligentPointsWith_eq_of_two pointDist _ zEnd0 zEnd1 [] hv]
  have h1 : decimStep pointDist (zEnd0, [zEnd0]) zEnd1 = (zEnd0, [zEnd0]) :=
    decimStep_skip_falsy _ _ _ (by decide)
  simp only [List.foldl, h1]
  rw [if_pos (by decide)]
  rfl

/-- Evaluation of the decimation on the track pole, zero-latitude point,
pole: the middle point is skipped by the truthiness guard although it is
a quarter great circle away, and the final pole is pushed by the id
check. -/
theorem intelligentPoints_pole_zero :
    intelligentPoints [cPoleA, cZeroLat, cPoleB] = [cPoleA, cPoleB] := by
  have hv : validFlightData [cPoleA, cZeroLat, cPoleB] = cPoleA :: cZeroLat :: [cPoleB] := by
    decide
  show intelligentPointsWith pointDist [cPoleA, cZeroLat, cPoleB] = [cPoleA, cPoleB]
  rw [intelligentPointsWith_eq_of_two pointDist _ cPoleA cZeroLat [cPoleB] hv]
  have h1 : decimStep pointDist (cPoleA, [cPoleA]) cZeroLat = (cPoleA, [cPoleA]) :=
    decimStep_skip_falsy _ _ _ (by decide)
  have h2 : decimStep pointDist (cPoleA, [cPoleA]) cPoleB = (cPoleA, [cPoleA]) := by
    apply decimStep_skip_near
    rw [show pointDist (cPoleA, ([cPoleA] : List FlightDataPoint)).1 cPoleB = 0 from
      pointDist_pole_pole_same]
    norm_num
  simp only [List.foldl, h1, h2]
  rw [if_pos (by decide)]
  rfl

/-! ## Further decimation helpers -/

/-- Unfolding of the haversine instantiation. -/
theorem intelligentPoints_def (pts : List FlightDataPoint) :
    intelligentPoints pts = intelligentPointsWith pointDist pts := rfl

/-- A point with a zero coordinate is falsy. -/
theorem pointTruthy_false_of_zero (p : FlightDataPoint)
    (h : p.latitude = some 0 ∨ p.longitude = some 0) : pointTruthy p = false := by
  rcases h with h | h
  · simp [pointTruthy, optTruthy, h]
  · simp [pointTruthy, optTruthy, h]

/-! ## Claim theorems: view-model pagination (C1) -/

/-- Claim C1 counterexample: changing the `startDate` filter while the
page index is 3 leaves the page index at 3 — the filter-change handlers
do not reset it to 0, so the next fetch still uses the old page offset
(`skip = 75` at 25 rows per page). -/
theorem filterChange_keeps_pageIndex :
    (handleFilterInputChange ⟨⟨"", "", "", ""⟩, 3, 25⟩ "startDate" "2024-06-01").page = 3 ∧
    ¬ (handleFilterInputChange ⟨⟨"", "", "", ""⟩, 3, 25⟩ "startDate" "2024-06-01").page = 0 ∧
    fetchSkip (handleFilterInputChange ⟨⟨"", "", "", ""⟩, 3, 25⟩ "startDate" "2024-06-01") = 75 := by
  decide

/-- Claim C1 amended: a page-size change resets the page index to 0
before the next fetch, but a filter-field change (either handler) leaves
the page index unchanged. -/
theorem pageIndex_reset_on_pageSize_change_only (s : FlightsPageState) (v : ℕ)
    (name value : String) :
    (handleChangeRowsPerPage s v).page = 0 ∧
    (handleFilterInputChange s name value).page = s.page ∧
    (handleFilterSelectChange s name value).page = s.page :=
  ⟨rfl, rfl, rfl⟩

/-! ## Claim theorems: decimation walk condition (C2) -/

/-- Claim C2 counterexample: with the truthy north-pole point as the last
kept point, the current valid point `(0, 90)` is a quarter great circle
(≥ 10 m) away, yet the walk does not keep it and does not advance the
reference, because its latitude 0 is falsy; on the full three-point track
the zero-latitude point is absent from the decimated output. -/
theorem decimStep_skips_far_point_with_zero_latitude :
    decimStep pointDist (cPoleA, [cPoleA]) cZeroLat = (cPoleA, [cPoleA]) ∧
    10 ≤ pointDist cPoleA cZeroLat ∧
    cZeroLat.latitude = some 0 ∧
    intelligentPoints [cPoleA, cZeroLat, cPoleB] = [cPoleA, cPoleB] := by
  refine ⟨decimStep_skip_falsy _ _ _ (by decide), ?hd, by decide, intelligentPoints_pole_zero⟩
  rw [pointDist_pole_zero]
  exact quarter_circle_ge_ten

/-- Claim C2 amended: at every position of the walk, the current point is
kept and the reference advanced exactly when both the current point and
the last kept point have truthy (present and nonzero) coordinates and
the haversine distance from the last kept point is ≥ 10 m; otherwise the
walk state is unchanged. -/
theorem decimStep_keeps_iff_truthy_and_far
    (st : FlightDataPoint × List FlightDataPoint) (cur : FlightDataPoint) :
    (decimStep pointDist st cur = (cur, st.2 ++ [cur]) ↔
      (pointTruthy cur = true ∧ pointTruthy st.1 = true ∧ 10 ≤ pointDist st.1 cur)) ∧
    (decimStep pointDist st cur = (cur, st.2 ++ [cur]) ∨ decimStep pointDist st cur = st) := by
  rcases decimStep_cases pointDist st cur with ⟨heq, h1, h2, h3⟩ | ⟨heq, hor⟩
  · exact ⟨⟨fun _ => ⟨h1, h2, h3⟩, fun _ => heq⟩, Or.inl heq⟩
  · refine ⟨⟨?hf, ?hg⟩, Or.inr heq⟩
    · intro hkeep
      rw [heq] at hkeep
      exfalso
      have hlen := congrArg (fun z => z.2.length) hkeep
      simp at hlen
    · rintro ⟨h1, h2, h3⟩
      exfalso
      rcases hor with h | h | h
      · rw [h1] at h
        cases h
      · rw [h2] at h
        cases h
      · exact absurd h3 h

/-! ## Claim theorems: zero-coordinate points in the output (C10) -/

/-- Claim C10: a valid point whose latitude or longitude equals 0 is
never kept by the distance loop as an intermediate point; wherever it
occurs in the decimated output, it is the first or the last element. -/
theorem zero_coordinate_point_only_at_ends (pts pre post : List FlightDataPoint)
    (p : FlightDataPoint) (hsplit : intelligentPoints pts = pre ++ p :: post)
    (hzero : p.latitude = some 0 ∨ p.longitude = some 0) :
    pre = [] ∨ post = [] := by
  by_contra hcon
  push_neg at hcon
  obtain ⟨hpre, hpost⟩ := hcon
  have hpt : pointTruthy p = false := pointTruthy_false_of_zero p hzero
  rw [intelligentPoints_def] at hsplit
  rcases hv : validFlightData pts with _ | ⟨p0, _ | ⟨q, rest⟩⟩
  · rw [intelligentPointsWith, hv] at hsplit
    exact absurd hsplit.symm (by simp)
  · rw [intelligentPointsWith, hv] at hsplit
    have hlen := congrArg List.length hsplit
    have h1 : 1 ≤ pre.length := List.length_pos.mpr hpre
    have h2 : 1 ≤ post.length := List.length_pos.mpr hpost
    simp at hlen
    omega
  · have hout := intelligentPointsWith_eq_of_two pointDist pts p0 q rest hv
    obtain ⟨hne2, hhead, hlast, hmemv, hmem, htail, hchain⟩ := decimInv_foldl pointDist p0 q rest
    rw [hout] at hsplit
    obtain ⟨a, pre2, hpre2⟩ := List.exists_cons_of_ne_nil hpre
    have hP : p ∈ ((q :: rest).foldl (decimStep pointDist) (p0, [p0])).2.drop 1 := by
      by_cases hid : ((q :: rest).getLastD p0).id ≠
          ((q :: rest).foldl (decimStep pointDist) (p0, [p0])).1.id
      · rw [if_pos hid] at hsplit
        rcases List.eq_nil_or_concat post with hcase | ⟨post2, lvx, hpost2⟩
        · exact absurd hcase hpost
        · rw [hpost2, List.concat_eq_append] at hsplit
          have hassoc : pre ++ p :: (post2 ++ [lvx]) = (pre ++ p :: post2) ++ [lvx] := by
            simp
          rw [hassoc] at hsplit
          have hdl := congrArg List.dropLast hsplit
          rw [List.dropLast_concat, List.dropLast_concat] at hdl
          rw [hdl, hpre2]
          simp
      · rw [if_neg hid] at hsplit
        rw [hsplit, hpre2]
        simp
    have := htail p hP
    rw [hpt] at this
    cases this

/-- Claim C10 witness: on the track whose head has latitude 0, that point
occurs in the output only at an end. -/
theorem zero_coordinate_point_only_at_ends_witness :
    ([] : List FlightDataPoint) = [] ∨ ([zEnd1] : List FlightDataPoint) = [] :=
  zero_coordinate_point_only_at_ends [zEnd0, zEnd1] [] [zEnd1] zEnd0
    (by rw [intelligentPoints_zEnd]; rfl) (Or.inl (by decide))

/-! ## Claim theorems: spacing of kept points (C5) -/

/-- Claim C5: any two consecutively kept points of the decimated output,
excluding the mandatorily kept first and last elements, are at haversine
distance ≥ 10 m from each other. -/
theorem consecutive_kept_points_ge_ten_meters (pts pre post : List FlightDataPoint)
    (u v : FlightDataPoint)
    (hsplit : intelligentPoints pts = pre ++ u :: v :: post)
    (_hpre : pre ≠ []) (hpost : post ≠ []) :
    10 ≤ pointDist u v := by
  rw [intelligentPoints_def] at hsplit
  rcases hv : validFlightData pts with _ | ⟨p0, _ | ⟨q, rest⟩⟩
  · rw [intelligentPointsWith, hv] at hsplit
    exact absurd hsplit.symm (by simp)
  · rw [intelligentPointsWith, hv] at hsplit
    have hlen := congrArg List.length hsplit
    simp at hlen
    omega
  · have hout := intelligentPointsWith_eq_of_two pointDist pts p0 q rest hv
    obtain ⟨hne2, hhead, hlast, hmemv, hmem, htail, hchain⟩ := decimInv_foldl pointDist p0 q rest
    rw [hout] at hsplit
    have hkey : ∃ tail2, ((q :: rest).foldl (decimStep pointDist) (p0, [p0])).2 =
        pre ++ u :: v :: tail2 := by
      by_cases hid : ((q :: rest).getLastD p0).id ≠
          ((q :: rest).foldl (decimStep pointDist) (p0, [p0])).1.id
      · rw [if_pos hid] at hsplit
        rcases List.eq_nil_or_concat post with hcase | ⟨post2, lvx, hpost2⟩
        · exact absurd hcase hpost
        · rw [hpost2, List.concat_eq_append] at hsplit
          have hassoc : pre ++ u :: v :: (post2 ++ [lvx]) = (pre ++ u :: v :: post2) ++ [lvx] := by
            simp
          rw [hassoc] at hsplit
          have hdl := congrArg List.dropLast hsplit
          rw [List.dropLast_concat, List.dropLast_concat] at hdl
          exact ⟨post2, hdl⟩
      · rw [if_neg hid] at hsplit
        exact ⟨post, hsplit⟩
    obtain ⟨tail2, hst2⟩ := hkey
    rw [hst2] at hchain
    have hmid := (List.chain'_append.mp hchain).2.1
    exact (List.chain'_cons.mp hmid).1

/-- Claim C5 witness: on the pole-hopping track the interior consecutive
pair is at least 10 m apart. -/
theorem consecutive_kept_points_ge_ten_meters_witness : 10 ≤ pointDist wq1 wq2 :=
  consecutive_kept_points_ge_ten_meters [wq0, wq1, wq2, wq3] [wq0] [wq3] wq1 wq2
    (by rw [intelligentPoints_wq]; rfl) (by simp) (by simp)

/-! ## Claim theorems: first and last valid points kept (C3) -/

/-- Claim C3: when the track has at least one valid point and record ids
are unique, the decimated output contains the first valid point and the
last valid point. -/
theorem decimation_keeps_first_and_last_valid (pts : List FlightDataPoint)
    (x y : FlightDataPoint)
    (hnd : ((validFlightData pts).map FlightDataPoint.id).Nodup)
    (hh : (validFlightData pts).head? = some x)
    (hl : (validFlightData pts).getLast? = some y) :
    x ∈ intelligentPoints pts ∧ y ∈ intelligentPoints pts := by
  rw [intelligentPoints_def]
  rcases hv : validFlightData pts with _ | ⟨p0, _ | ⟨q, rest⟩⟩
  · rw [hv] at hh
    cases hh
  · rw [hv] at hh hl
    have hx : p0 = x := by simpa using hh
    have hy : p0 = y := by simpa using hl
    rw [intelligentPointsWith, hv, ← hx, ← hy]
    exact ⟨by simp, by simp⟩
  · rw [hv] at hh hl
    have hx : p0 = x := by simpa using hh
    have hy2 : (q :: rest).getLastD p0 = y := by
      rw [List.getLastD_eq_getLast?]
      rw [List.getLast?_cons_cons] at hl
      rw [hl]
      rfl
    have hout := intelligentPointsWith_eq_of_two pointDist pts p0 q rest hv
    obtain ⟨hne2, hhead, hlast, hmemv, hmem, htail, hchain⟩ := decimInv_foldl pointDist p0 q rest
    set st := (q :: rest).foldl (decimStep pointDist) (p0, [p0]) with hstdef
    have hx_in : x ∈ st.2 := by
      rw [← hx]
      apply List.mem_of_mem_head?
      rw [Option.mem_def]
      exact hhead
    rw [hout]
    by_cases hid : ((q :: rest).getLastD p0).id ≠ st.1.id
    · rw [if_pos hid]
      refine ⟨List.mem_append_left _ hx_in, ?hy⟩
      rw [hy2]
      exact List.mem_append_right _ (by simp)
    · rw [if_neg hid]
      push_neg at hid
      have hgl : (q :: rest).getLastD p0 = (q :: rest).getLast (List.cons_ne_nil q rest) := by
        rw [List.getLastD_eq_getLast?,
          List.getLast?_eq_getLast_of_ne_nil (List.cons_ne_nil q rest)]
        rfl
      have hlv_mem : (q :: rest).getLastD p0 ∈ validFlightData pts := by
        rw [hv, hgl]
        exact List.mem_cons_of_mem p0 (List.getLast_mem _)
      have hst_mem : st.1 ∈ validFlightData pts := by
        rw [hv]
        exact hmemv
      have heq2 : (q :: rest).getLastD p0 = st.1 :=
        List.inj_on_of_nodup_map hnd hlv_mem hst_mem hid
      refine ⟨hx_in, ?hy4⟩
      rw [← hy2, heq2]
      exact hmem

/-- Claim C3 witness: a one-point track keeps its only valid point as
both first and last. -/
theorem decimation_keeps_first_and_last_valid_witness :
    wSolo ∈ intelligentPoints [wSolo] ∧ wSolo ∈ intelligentPoints [wSolo] :=
  decimation_keeps_first_and_last_valid [wSolo] wSolo wSolo (by decide) (by decide) (by decide)

/-! ## Claim theorems: decimation edge cases (C6) -/

/-- Claim C6: a track with 0 or 1 valid points is returned unchanged (as
its valid-point sequence); a track with at least two valid points, unique
ids, and all valid points within 10 m of each other decimates to exactly
its first and last valid points. -/
theorem decimation_edge_cases (pts : List FlightDataPoint) :
    ((validFlightData pts).length ≤ 1 → intelligentPoints pts = validFlightData pts) ∧
    (∀ x y : FlightDataPoint,
      ((validFlightData pts).map FlightDataPoint.id).Nodup →
      (validFlightData pts).head? = some x →
      (validFlightData pts).getLast? = some y →
      (∀ p ∈ validFlightData pts, ∀ q ∈ validFlightData pts, pointDist p q < 10) →
      2 ≤ (validFlightData pts).length →
      intelligentPoints pts = [x, y]) := by
  constructor
  · intro hlen
    rw [intelligentPoints_def]
    rcases hv : validFlightData pts with _ | ⟨p0, _ | ⟨q, rest⟩⟩
    · rw [intelligentPointsWith, hv]
    · rw [intelligentPointsWith, hv]
    · rw [hv] at hlen
      simp at hlen
  · intro x y hnd hh hl hclose hlen2
    rw [intelligentPoints_def]
    rcases hv : validFlightData pts with _ | ⟨p0, _ | ⟨q, rest⟩⟩
    · rw [hv] at hh
      cases hh
    · rw [hv] at hlen2
      simp at hlen2
    · rw [hv] at hh hl
      have hx : p0 = x := by simpa using hh
      have hy2 : (q :: rest).getLastD p0 = y := by
        rw [List.getLastD_eq_getLast?]
        rw [List.getLast?_cons_cons] at hl
        rw [hl]
        rfl
      rw [hv] at hclose
      have hfold : (q :: rest).foldl (decimStep pointDist) (p0, [p0]) = (p0, [p0]) := by
        apply foldl_decimStep_inv pointDist (q :: rest)
          (fun st => st = (p0, [p0])) (p0, [p0]) rfl
        intro st cur hm hq
        rw [hq]
        apply decimStep_skip_near
        have h1 : pointDist p0 cur < 10 :=
          hclose p0 (List.mem_cons_self _ _) cur (List.mem_cons_of_mem p0 hm)
        exact not_le.mpr h1
      have hout := intelligentPointsWith_eq_of_two pointDist pts p0 q rest hv
      rw [hout, hfold]
      have hgl : (q :: rest).getLastD p0 = (q :: rest).getLast (List.cons_ne_nil q rest) := by
        rw [List.getLastD_eq_getLast?,
          List.getLast?_eq_getLast_of_ne_nil (List.cons_ne_nil q rest)]
        rfl
      have hid : ((q :: rest).getLastD p0).id ≠ (p0, ([p0] : List FlightDataPoint)).1.id := by
        intro hEq
        rw [hv] at hnd
        simp only [List.map_cons, List.nodup_cons] at hnd
        apply hnd.1
        have hlv_mem : (q :: rest).getLastD p0 ∈ (q :: rest) := by
          rw [hgl]
          exact List.getLast_mem _
        rw [← hEq]
        exact List.mem_map_of_mem FlightDataPoint.id hlv_mem
      rw [if_pos hid, ← hx, hy2]
      rfl

/-- Claim C6 witness: the one-point track is returned unchanged, and a
three-point clustered track (all pairwise 0 m apart, well within 1 m)
decimates to exactly its first and last points. -/
theorem decimation_edge_cases_witness :
    intelligentPoints [wSolo] = validFlightData [wSolo] ∧
    intelligentPoints [cl1, cl2, cl3] = [cl1, cl3] := by
  constructor
  · exact (decimation_edge_cases [wSolo]).1 (by decide)
  · refine (decimation_edge_cases [cl1, cl2, cl3]).2 cl1 cl3 (by decide) (by decide) (by decide)
      ?hclose (by decide)
    intro p hp q hq
    have hv : validFlightData [cl1, cl2, cl3] = [cl1, cl2, cl3] := by decide
    rw [hv] at hp hq
    rw [pointDist_cluster p q hp hq]
    norm_num

/-! ## Helpers for the sorting claims -/

/-- A comparison with `undefined` on the right is false. -/
theorem jsLt_undef_right (v : JSVal) : jsLt v JSVal.undef = false := by
  cases v <;> rfl

/-- A comparison with `undefined` on the left is false. -/
theorem jsLt_undef_left (v : JSVal) : jsLt JSVal.undef v = false := by
  cases v <;> rfl

/-- Merge sort on a two-element list. -/
theorem mergeSort_pair (le : β → β → Bool) (x y : β) :
    List.mergeSort [x, y] le = if le x y then [x, y] else [y, x] := by
  by_cases h : le x y = true
  · simp [List.mergeSort, List.splitInTwo, List.merge, h]
  · simp only [Bool.not_eq_true] at h
    simp [List.mergeSort, List.splitInTwo, List.merge, h]

/-- The stable sort of a two-element list: the first element stays first
exactly when the comparator is non-positive on the pair (a tie is broken
by the original positions). -/
theorem stableSort_pair (a b : α) (c : α → α → ℤ) :
    stableSort [a, b] c = if c a b ≤ 0 then [a, b] else [b, a] := by
  have htag : tagged [a, b] = [(a, 0), (b, 1)] := by
    simp [tagged, List.enum, List.enumFrom]
  have hiff : tagLe c (a, 0) (b, 1) = true ↔ c a b ≤ 0 := by
    rw [tagLe_iff]
    dsimp only
    omega
  by_cases h : c a b ≤ 0
  · rw [if_pos h]
    rw [stableSort, taggedSort, htag, mergeSort_pair, if_pos (hiff.mpr h)]
    rfl
  · rw [if_neg h]
    rw [stableSort, taggedSort, htag, mergeSort_pair, if_neg]
    · rfl
    · rw [hiff]
      exact h

/-! ## Claim theorems: comparator totality and sentinels (C7) -/

/-- Claim C7: the comparator factory yields a total function — on every
pair of records, for any accessor (including one producing `undefined`),
the result is one of -1, 0, 1, and records whose accessed values are
`undefined` compare as equal (result 0) rather than failing; in the
flights pipeline, missing fields are replaced by the defined sentinels
`'N/A'`, `'ZZZ'` and `0` before sorting. -/
theorem comparator_total_and_enrichment_sentinels :
    (∀ (α : Type) (a b : α) (ord : Order) (f : α → JSVal),
      getComparator ord f a b = -1 ∨ getComparator ord f a b = 0 ∨
        getComparator ord f a b = 1) ∧
    (∀ (α : Type) (a b : α) (f : α → JSVal),
      f a = JSVal.undef ∨ f b = JSVal.undef → descendingComparator a b f = 0) ∧
    (∀ fl : Flight,
      (fl.pilot = none → (enrichFlight fl).pilot_name = "N/A") ∧
      (fl.drone = none → (enrichFlight fl).drone_name = "N/A") ∧
      (fl.flight_location = none → (enrichFlight fl).location_name = "ZZZ") ∧
      (fl.duration = none → (enrichFlight fl).duration = 0)) := by
  refine ⟨?htotal, ?hundef, ?hsent⟩
  · intro α a b ord f
    cases ord with
    | desc =>
      rcases descendingComparator_cases a b f with ⟨h, _⟩ | ⟨h, _⟩ | ⟨h, _⟩ <;>
        simp [getComparator, h]
    | asc =>
      rcases descendingComparator_cases a b f with ⟨h, _⟩ | ⟨h, _⟩ | ⟨h, _⟩ <;>
        simp [getComparator, h]
  · intro α a b f h
    rcases h with h | h
    · rw [descendingComparator, h, jsLt_undef_right, jsLt_undef_left]
      rfl
    · rw [descendingComparator, h, jsLt_undef_right, jsLt_undef_left]
      rfl
  · intro fl
    refine ⟨?hp, ?hd, ?hl, ?hdu⟩
    · intro h
      simp [enrichFlight, jsOrStr, h]
    · intro h
      simp [enrichFlight, jsOrStr, h]
    · intro h
      simp [enrichFlight, jsOrStr, h]
    · intro h
      simp [enrichFlight, jsOrNum, h]

/-- Claim C7 witness: on a flight with no pilot, drone, location or
duration, the enrichment produces the sentinels, and the comparator on
an `undefined`-producing accessor returns 0. -/
theorem comparator_total_and_enrichment_sentinels_witness :
    descendingComparator fBare fBare (fun _ => JSVal.undef) = 0 ∧
    (enrichFlight fBare).pilot_name = "N/A" ∧
    (enrichFlight fBare).drone_name = "N/A" ∧
    (enrichFlight fBare).location_name = "ZZZ" ∧
    (enrichFlight fBare).duration = 0 :=
  ⟨comparator_total_and_enrichment_sentinels.2.1 Flight fBare fBare
      (fun _ => JSVal.undef) (Or.inl rfl),
    (comparator_total_and_enrichment_sentinels.2.2 fBare).1 rfl,
    (comparator_total_and_enrichment_sentinels.2.2 fBare).2.1 rfl,
    (comparator_total_and_enrichment_sentinels.2.2 fBare).2.2.1 rfl,
    (comparator_total_and_enrichment_sentinels.2.2 fBare).2.2.2 rfl⟩

/-! ## Claim theorems: missing-location sentinel (C8) -/

/-- Claim C8 counterexample: the sentinel `'ZZZ'` does not sort after all
real location names.  With a location named `"alpha"` (lowercase initial,
which sorts after `'Z'` in code-unit order), the ascending
location-name sort places the record without a location *before* the
record with the real location. -/
theorem missing_location_sorts_before_lowercase_name :
    sortedFlights [fAlpha, fNoLoc] Order.asc locationNameField =
      [enrichFlight fNoLoc, enrichFlight fAlpha] ∧
    fNoLoc.flight_location = none ∧
    (enrichFlight fNoLoc).location_name = "ZZZ" ∧
    (enrichFlight fAlpha).location_name = "alpha" := by
  refine ⟨?hsort, by decide, by decide, by decide⟩
  have hmap : [fAlpha, fNoLoc].map enrichFlight = [enrichFlight fAlpha, enrichFlight fNoLoc] := by
    simp
  have hc : getComparator Order.asc locationNameField (enrichFlight fAlpha)
      (enrichFlight fNoLoc) = 1 := by decide
  rw [sortedFlights, hmap, stableSort_pair, if_neg]
  rw [hc]
  norm_num

/-- Claim C8 amended: a record with a missing flight location is assigned
the sentinel location name `'ZZZ'`; in an ascending sort on location
name, such a record appears after a record whose real (nonempty)
location name lexicographically precedes `'ZZZ'` — but not after every
real name, as the counterexample with a lowercase name shows. -/
theorem missing_location_sentinel_orders_after_smaller_names :
    (∀ fl : Flight, fl.flight_location = none →
      (enrichFlight fl).location_name = "ZZZ") ∧
    (∀ (fReal fMissing : Flight) (loc : FlightLocation),
      fReal.flight_location = some loc →
      fMissing.flight_location = none →
      loc.name ≠ "" →
      jsStrLt loc.name "ZZZ" = true →
      sortedFlights [fReal, fMissing] Order.asc locationNameField =
        [enrichFlight fReal, enrichFlight fMissing] ∧
      sortedFlights [fMissing, fReal] Order.asc locationNameField =
        [enrichFlight fReal, enrichFlight fMissing]) := by
  constructor
  · intro fl h
    simp [enrichFlight, jsOrStr, h]
  · intro fReal fMissing loc hr hm hname hlt
    have heR : locationNameField (enrichFlight fReal) = JSVal.str loc.name := by
      simp [locationNameField, enrichFlight, jsOrStr, hr, hname]
    have heM : locationNameField (enrichFlight fMissing) = JSVal.str "ZZZ" := by
      simp [locationNameField, enrichFlight, jsOrStr, hm]
    have hza : jsLt (JSVal.str "ZZZ") (JSVal.str loc.name) = false := jsStrLt_asymm hlt
    have haz : jsLt (JSVal.str loc.name) (JSVal.str "ZZZ") = true := hlt
    have hc1 : getComparator Order.asc locationNameField (enrichFlight fReal)
        (enrichFlight fMissing) = -1 := by
      simp only [getComparator, descendingComparator, heR, heM, hza, haz]
      norm_num
    have hc2 : getComparator Order.asc locationNameField (enrichFlight fMissing)
        (enrichFlight fReal) = 1 := by
      simp only [getComparator, descendingComparator, heR, heM, hza, haz]
      norm_num
    constructor
    · have hmap : [fReal, fMissing].map enrichFlight =
          [enrichFlight fReal, enrichFlight fMissing] := by simp
      rw [sortedFlights, hmap, stableSort_pair, if_pos]
      rw [hc1]
      norm_num
    · have hmap : [fMissing, fReal].map enrichFlight =
          [enrichFlight fMissing, enrichFlight fReal] := by simp
      rw [sortedFlights, hmap, stableSort_pair, if_neg]
      rw [hc2]
      norm_num

/-- Claim C8 witness: a real location named `"Alpha"` precedes `'ZZZ'`,
so the missing-location record sorts after it in both input orders. -/
theorem missing_location_sentinel_orders_after_smaller_names_witness :
    (enrichFlight fNoLoc).location_name = "ZZZ" ∧
    sortedFlights [⟨5, "2024-01-05", some ⟨12, "Alpha", 2, 2⟩, none, none, true, none, []⟩,
        fNoLoc] Order.asc locationNameField =
      [enrichFlight ⟨5, "2024-01-05", some ⟨12, "Alpha", 2, 2⟩, none, none, true, none, []⟩,
        enrichFlight fNoLoc] :=
  ⟨missing_location_sentinel_orders_after_smaller_names.1 fNoLoc rfl,
    (missing_location_sentinel_orders_after_smaller_names.2
      ⟨5, "2024-01-05", some ⟨12, "Alpha", 2, 2⟩, none, none, true, none, []⟩
      fNoLoc ⟨12, "Alpha", 2, 2⟩ rfl rfl (by decide) (by decide)).1⟩

/-! ## Claim theorems: stable sort stability (C4) -/

/-- The ascending name comparator is consistent. -/
theorem cName_consistent : ConsistentComparator cName :=
  consistent_getComparator Order.asc nameField (fun r => ⟨r.name, rfl⟩)

/-- Evaluation of the tagged sort on the scenario records. -/
theorem taggedSort_demo :
    taggedSort demoRecords cName = [(⟨"a"⟩, 1), (⟨"a"⟩, 2), (⟨"b"⟩, 0)] := by
  have h1 : tagLe cName (⟨"b"⟩, 0) (⟨"a"⟩, 1) = false := by decide
  have h2 : tagLe cName (⟨"a"⟩, 1) (⟨"a"⟩, 2) = true := by decide
  have h3 : tagLe cName (⟨"b"⟩, 0) (⟨"a"⟩, 2) = false := by decide
  simp [taggedSort, tagged, demoRecords, List.enum, List.enumFrom, List.mergeSort,
    List.splitInTwo, List.merge, h1, h2, h3]

/-- Claim C4 counterexample: under an inconsistent comparator the model
of `Array.prototype.sort` (for which ECMA-262 leaves the order
implementation-defined) can reorder an equal-key pair: with `cBad`,
elements 1 and 2 compare equal both ways, appear in that order in the
input, and in the opposite order in the output. -/
theorem stableSort_unstable_for_inconsistent_comparator :
    stableSort [0, 1, 2] cBad = [2, 0, 1] ∧ cBad 1 2 = 0 ∧ cBad 2 1 = 0 := by
  refine ⟨?hsort, by decide, by decide⟩
  simp [stableSort, taggedSort, tagged, List.mergeSort, List.splitInTwo, List.merge,
    tagLe, cBad, List.enum, List.enumFrom]

/-- Claim C4 amended: for every *consistent* comparator, records at input
positions `i < j` with equal comparator keys keep their relative order
in the sorted tagged array, whose first projection is the `stableSort`
output; and the concrete scenario holds: sorting
`[{name:"b"},{name:"a"},{name:"a"}]` ascending by name yields
`[a(index 1), a(index 2), b(index 0)]`. -/
theorem stableSort_stability_and_scenario :
    (∀ (α : Type) [DecidableEq α] (l : List α) (c : α → α → ℤ),
      ConsistentComparator c → ∀ (i j : ℕ) (hi : i < l.length) (hj : j < l.length),
      i < j → c (l.get ⟨i, hi⟩) (l.get ⟨j, hj⟩) = 0 →
      posIn (l.get ⟨i, hi⟩, i) (taggedSort l c) < posIn (l.get ⟨j, hj⟩, j) (taggedSort l c) ∧
      stableSort l c = (taggedSort l c).map Prod.fst) ∧
    (taggedSort demoRecords cName = [(⟨"a"⟩, 1), (⟨"a"⟩, 2), (⟨"b"⟩, 0)] ∧
      stableSort demoRecords cName = [⟨"a"⟩, ⟨"a"⟩, ⟨"b"⟩]) := by
  constructor
  · intro α _inst l c hc i j hi hj hij h0
    exact ⟨stableSort_stable l c hc i j hi hj hij h0, rfl⟩
  · refine ⟨taggedSort_demo, ?hs⟩
    rw [stableSort, taggedSort_demo]
    rfl

/-- Claim C4 witness: in the scenario, the first `a` (input index 1)
precedes the second `a` (input index 2) in the sorted tagged array. -/
theorem stableSort_stability_and_scenario_witness :
    posIn ((⟨"a"⟩ : NameRecord), 1) (taggedSort demoRecords cName) <
      posIn ((⟨"a"⟩ : NameRecord), 2) (taggedSort demoRecords cName) :=
  (stableSort_stability_and_scenario.1 NameRecord demoRecords cName
    cName_consistent 1 2 (by decide) (by decide) (by decide) (by decide)).1

/-! ## Claim theorems: stable sort idempotence (C9) -/

/-- Claim C9 counterexample: with the inconsistent constant comparator 1,
sorting `[0, 1]` once gives `[1, 0]` and sorting again gives `[0, 1]`,
so applying `stableSort` twice does not yield the same order as applying
it once. -/
theorem stableSort_not_idempotent_for_inconsistent_comparator :
    stableSort (stableSort [0, 1] alwaysGreater) alwaysGreater ≠
      stableSort [0, 1] alwaysGreater := by
  have h1 : stableSort [0, 1] alwaysGreater = [1, 0] := by
    rw [stableSort_pair, if_neg (by decide)]
  have h2 : stableSort [1, 0] alwaysGreater = [0, 1] := by
    rw [stableSort_pair, if_neg (by decide)]
  rw [h1, h2]
  decide

/-- Claim C9 amended: for every *consistent* comparator, `stableSort`
applied twice yields the same order as applying it once. -/
theorem stableSort_idempotent_for_consistent_comparator (l : List α) (c : α → α → ℤ)
    (hc : ConsistentComparator c) :
    stableSort (stableSort l c) c = stableSort l c :=
  stableSort_idem_of_consistent l c hc

/-- Claim C9 witness: idempotence at the scenario records and the
ascending name comparator. -/
theorem stableSort_idempotent_for_consistent_comparator_witness :
    stableSort (stableSort demoRecords cName) cName = stableSort demoRecords cName :=
  stableSort_idempotent_for_consistent_comparator demoRecords cName cName_consistent
